import Mathlib

/-!
Verification of the sector-news analysis core (`news_agents` package):
same-day aggregation, next-day calibration, redistribution and batch
orchestration (`agent1.py`), the decision engine (`agent2.py`), and the
recency weighting helpers (`types.py`, `utils.py`).

Python floats are modelled by exact arithmetic: `ℚ` wherever the source only
uses field operations, and `ℝ` where `math.exp` / `math.pow` appear.
Python's `round(x, n)` (round half to even on the scaled value) is modelled
by `rhe` / `roundTo`.
-/

namespace NewsAgents

/-- Round half to even (Python's `round` on the scaled value). -/
def rhe {α : Type} [LinearOrderedField α] [FloorRing α] (x : α) : ℤ :=
  if Int.fract x < 1/2 then ⌊x⌋
  else if 1/2 < Int.fract x then ⌊x⌋ + 1
  else if ⌊x⌋ % 2 = 0 then ⌊x⌋ else ⌊x⌋ + 1

/-- Python's `round(x, n)`: round to `n` decimal places, ties to even. -/
def roundTo {α : Type} [LinearOrderedField α] [FloorRing α] (n : ℕ) (x : α) : α :=
  ((rhe (x * (10:α)^n) : ℤ) : α) / (10:α)^n

/-- `agent1.clamp(x, lo, hi) = max(lo, min(hi, x))`. -/
def clamp (x lo hi : ℚ) : ℚ := max lo (min hi x)

/-- `agent1._sign`: `1 if x>0 else (-1 if x<0 else 0)`. -/
def sgn (x : ℚ) : ℤ := if 0 < x then 1 else if x < 0 then -1 else 0

/-- `agent1.NEWS_TYPE_MULTIPLIER.get(news_type, 1.0)`. -/
def NEWS_TYPE_MULTIPLIER (t : String) : ℚ :=
  if t = "regulatory" then 12/10
  else if t = "earnings" then 11/10
  else if t = "legal" then 11/10
  else if t = "sector" then 19/20
  else if t = "macro" then 9/10
  else if t = "ESG" then 9/10
  else 1

/-- The calibration/redistribution provenance notes written by `Agent1`
(Python builds these as strings; the numeric payload of the `scaled_by_...`
and `redistributed_scale_...` strings is kept as the rounded rational). -/
inductive CalNote : Type where
  | noCalibrationDataOrZero : CalNote
  | noCalibrationMismatchOrTiny : CalNote
  | scaledBy : ℚ → CalNote
  | noRedistributionZeroDayScore : CalNote
  | redistributedScale : ℚ → CalNote
deriving DecidableEq, Repr

/-- `types.Agent1Record`. -/
structure Agent1Record : Type where
  news_id : String
  sector : String
  tickers : List String
  sentiment_score : ℚ
  confidence : ℚ
  impact_horizon : String
  news_type : String
  rationale : String
  evidence_phrases : List String
  date_key : Option String
  attribution_weight : Option ℚ
  adjusted_sentiment : Option ℚ
  calibration_note : Option CalNote
deriving DecidableEq, Repr

namespace Agent1

/-- `magnitude = 0.5 + 0.5 * min(1.0, abs(r.sentiment_score)/4.0)`. -/
def magOf (r : Agent1Record) : ℚ := 1/2 + 1/2 * min 1 (|r.sentiment_score| / 4)

/-- One entry of `raw_w`: `r.confidence * mag * typ`. -/
def rawWeight (r : Agent1Record) : ℚ :=
  r.confidence * magOf r * NEWS_TYPE_MULTIPLIER r.news_type

/-- `Agent1.aggregate_same_day`.  Returns the day score together with the
records carrying their `attribution_weight`.  `total = sum(raw_w) or 1e-9`
is the Python fail-safe against an all-zero weight list. -/
def aggregate_same_day (records : List Agent1Record) : ℚ × List Agent1Record :=
  if records = [] then (0, [])
  else
    let s : ℚ := (records.map rawWeight).sum
    let total : ℚ := if s = 0 then 1/10^9 else s
    ((records.map (fun r => rawWeight r / total * r.sentiment_score)).sum,
     records.map (fun r =>
       { r with attribution_weight := some (roundTo 6 (rawWeight r / total)) }))

/-- `Agent1.calibrate_to_next_day`. -/
def calibrate_to_next_day (day_score : ℚ) (next_day_pct : Option ℚ) : ℚ × CalNote :=
  match next_day_pct with
  | none => (day_score, CalNote.noCalibrationDataOrZero)
  | some p =>
    if day_score = 0 ∨ sgn day_score = 0 then (day_score, CalNote.noCalibrationDataOrZero)
    else if sgn day_score ≠ sgn p ∨ |p| < 3/10 then
      (day_score, CalNote.noCalibrationMismatchOrTiny)
    else
      let scale := clamp (|p| / max (1/10) |day_score|) (1/2) (9/5)
      (day_score * scale, CalNote.scaledBy (roundTo 3 scale))

/-- `Agent1.redistribute`. -/
def redistribute (records : List Agent1Record) (original calibrated : ℚ) :
    List Agent1Record :=
  if original = 0 then
    records.map (fun r =>
      { r with adjusted_sentiment := some r.sentiment_score,
               calibration_note := some CalNote.noRedistributionZeroDayScore })
  else
    let scale := calibrated / original
    records.map (fun r =>
      { r with adjusted_sentiment := some (roundTo 4 (r.sentiment_score * scale)),
               calibration_note := some (CalNote.redistributedScale (roundTo 3 scale)) })

/-- The Python truthiness filter `[r for r in agent1_outputs if r.sector and
r.date_key]`: a record is kept when both strings are populated (non-empty). -/
def keptRecord (r : Agent1Record) : Bool :=
  !(r.sector == "") && (match r.date_key with
    | some d => !(d == "")
    | none => false)

/-- The grouping key `(r.sector, r.date_key)`. -/
def keyOf (r : Agent1Record) : String × String := (r.sector, r.date_key.getD "")

/-- The sort key order used by `agent1_outputs.sort(key=lambda r: (r.sector,
r.date_key))`: lexicographic on the pair of strings. -/
def recLE (a b : Agent1Record) : Prop := toLex (keyOf a) ≤ toLex (keyOf b)

instance : DecidableRel recLE :=
  fun a b => inferInstanceAs (Decidable (toLex (keyOf a) ≤ toLex (keyOf b)))

instance : IsTotal Agent1Record recLE := ⟨fun a b => le_total (toLex (keyOf a)) (toLex (keyOf b))⟩

instance : IsTrans Agent1Record recLE := ⟨fun _ _ _ hab hbc => le_trans hab hbc⟩

/-- `itertools.groupby`: split a list into maximal runs of consecutive
records sharing one `(sector, date_key)` key. -/
def groupRuns : List Agent1Record → List ((String × String) × List Agent1Record)
  | [] => []
  | r :: rs =>
    match groupRuns rs with
    | [] => [(keyOf r, [r])]
    | (k, g) :: t =>
      if keyOf r = k then (k, r :: g) :: t else (keyOf r, [r]) :: (k, g) :: t

/-- The per-group value stored by `process_batch` in its result dict. -/
structure DayGroupResult : Type where
  day_score_raw : ℚ
  day_score_calibrated : ℚ
  records : List Agent1Record
  calibration_basis_next_day_pct : Option ℚ
  calibration_note : CalNote
deriving DecidableEq, Repr

/-- The body of `process_batch`'s per-group loop: aggregate, calibrate
against the `next_day_sector_change` entry, redistribute, then fill any
still-missing `calibration_note` with the group note. -/
def processGroup (k : String × String) (recs : List Agent1Record)
    (nd : String × String → Option ℚ) : DayGroupResult :=
  let raw := (aggregate_same_day recs).1
  let recs1 := (aggregate_same_day recs).2
  let cal := nd k
  let cald := (calibrate_to_next_day raw cal).1
  let note := (calibrate_to_next_day raw cal).2
  let recs2 := redistribute recs1 raw cald
  let recs3 := recs2.map (fun r =>
    if r.calibration_note = none then { r with calibration_note := some note } else r)
  { day_score_raw := roundTo 4 raw
    day_score_calibrated := roundTo 4 cald
    records := recs3
    calibration_basis_next_day_pct := cal
    calibration_note := note }

/-- `Agent1.process_batch`: drop incomplete records, sort by `(sector,
date_key)` (Python's stable sort is modelled by insertion sort), group
consecutive equal keys, and run the pipeline per group.  The Python result
dict (insertion-ordered, distinct keys) is modelled as an association list. -/
def process_batch (agent1_outputs : List Agent1Record)
    (nd : String × String → Option ℚ) :
    List ((String × String) × DayGroupResult) :=
  (groupRuns (List.insertionSort recLE (agent1_outputs.filter keptRecord))).map
    (fun kg => (kg.1, processGroup kg.1 kg.2 nd))

end Agent1

namespace Types

/-- `types.recency_decay(age_days) = math.exp(-age_days / 7.0)` — the decay
function imported and used by `agent2.py`. -/
noncomputable def recency_decay (age_days : ℝ) : ℝ := Real.exp (-age_days / 7)

end Types

namespace Agent2

/-- The decision dict returned by `Agent2.decide`. -/
structure Decision : Type where
  label : String
  weighted_mean : ℝ
  consensus : ℝ
  confidence : ℝ
  rationale : String
  top_signals : List String

/-- The fixed fallback returned when `total_w == 0`. -/
noncomputable def fallbackDecision : Decision :=
  { label := "NO_IMPACT", weighted_mean := 0, consensus := 0, confidence := 1/5,
    rationale := "Insufficient evidence.", top_signals := [] }

/-- Per-signal weight `w = r.confidence * recency_decay(0.0)` (the call site
always passes age `0.0`). -/
noncomputable def wOf (r : Agent1Record) : ℝ :=
  (r.confidence : ℝ) * Types.recency_decay 0

/-- `s = r.adjusted_sentiment if r.adjusted_sentiment is not None else
r.sentiment_score` (the `is not None` presence test, used for the mean). -/
def effMean (r : Agent1Record) : ℚ :=
  match r.adjusted_sentiment with
  | some a => a
  | none => r.sentiment_score

/-- `r.adjusted_sentiment or r.sentiment_score` (Python truthiness: falls
back when `adjusted_sentiment` is `None` **or** equal to `0.0`; used in the
consensus sums and the `top_signals` ranking). -/
def effOr (r : Agent1Record) : ℚ :=
  match r.adjusted_sentiment with
  | some a => if a = 0 then r.sentiment_score else a
  | none => r.sentiment_score

/-- `total_w`. -/
noncomputable def totalWeight (items : List Agent1Record) : ℝ :=
  (items.map wOf).sum

/-- `weighted_sum`. -/
noncomputable def weightedSum (items : List Agent1Record) : ℝ :=
  (items.map (fun r => wOf r * (effMean r : ℝ))).sum

/-- `wm = weighted_sum / total_w`. -/
noncomputable def weightedMean (items : List Agent1Record) : ℝ :=
  weightedSum items / totalWeight items

open Classical in
/-- `pos_w = sum(w for (r,w) in zip(items,weights) if (r.adjusted_sentiment
or r.sentiment_score) > 0 and wm > 0)`. -/
noncomputable def posWeight (items : List Agent1Record) : ℝ :=
  (items.map (fun r =>
    if 0 < effOr r ∧ 0 < weightedMean items then wOf r else 0)).sum

open Classical in
/-- `neg_w`, analogously with `< 0` and `wm < 0`. -/
noncomputable def negWeight (items : List Agent1Record) : ℝ :=
  (items.map (fun r =>
    if effOr r < 0 ∧ weightedMean items < 0 then wOf r else 0)).sum

open Classical in
/-- `consensus = (pos_w if wm>0 else (neg_w if wm<0 else 0.0)) / total_w`. -/
noncomputable def consensusOf (items : List Agent1Record) : ℝ :=
  (if 0 < weightedMean items then posWeight items
   else if weightedMean items < 0 then negWeight items else 0) / totalWeight items

open Classical in
/-- The label if-chain. -/
noncomputable def labelOf (items : List Agent1Record)
    (up_threshold down_threshold min_consensus : ℝ) : String :=
  if up_threshold ≤ weightedMean items ∧ min_consensus ≤ consensusOf items then "UP"
  else if weightedMean items ≤ down_threshold ∧ min_consensus ≤ consensusOf items then "DOWN"
  else "NO_IMPACT"

/-- `confidence = min(0.9, total_w / (total_w + 1.0))` (before rounding). -/
noncomputable def confidenceOf (t : ℝ) : ℝ := min (9/10) (t / (t + 1))

/-- The ranking relation for `sorted(items, key=lambda x:
abs(x.adjusted_sentiment or x.sentiment_score), reverse=True)`: descending
by absolute effective sentiment, stable for equal keys. -/
def relTop (a b : Agent1Record) : Prop := |effOr b| ≤ |effOr a|

instance : DecidableRel relTop := fun a b => inferInstanceAs (Decidable (|effOr b| ≤ |effOr a|))

instance : IsTotal Agent1Record relTop := ⟨fun a b => le_total |effOr b| |effOr a|⟩

instance : IsTrans Agent1Record relTop := ⟨fun _ _ _ hab hbc => le_trans hbc hab⟩

/-- `top_ids`: first three ids of the ranked list. -/
def topSignals (items : List Agent1Record) : List String :=
  ((List.insertionSort relTop items).take 3).map (fun r => r.news_id)

open Classical in
/-- `Agent2.decide`.  The `now_iso` argument is parsed into `now` by the
source but `now` is never read afterwards (`recency_decay` is invoked with
the constant age `0.0`), so the parameter is carried but unused. -/
noncomputable def decide (items : List Agent1Record) (now_iso : Option String)
    (up_threshold down_threshold min_consensus : ℝ) : Decision :=
  if totalWeight items = 0 then fallbackDecision
  else
    { label := labelOf items up_threshold down_threshold min_consensus
      weighted_mean := roundTo 3 (weightedMean items)
      consensus := roundTo 3 (consensusOf items)
      confidence := roundTo 3 (confidenceOf (totalWeight items))
      rationale := "Direction inferred from weighted mean and consensus of adjusted sentiment."
      top_signals := topSignals items }

end Agent2

namespace Utils

/-- Gregorian leap year test. -/
def isLeap (y : ℕ) : Bool := (y % 4 == 0 && !(y % 100 == 0)) || y % 400 == 0

/-- Days in a month of the proleptic Gregorian calendar. -/
def daysInMonth (y m : ℕ) : ℕ :=
  if m = 2 then (if isLeap y then 29 else 28)
  else if m = 4 ∨ m = 6 ∨ m = 9 ∨ m = 11 then 30
  else 31

/-- Day count of a civil date (Howard Hinnant's `days_from_civil`); only
differences of ordinals are ever used, matching `(t - d).days`. -/
def toOrd (y m d : ℕ) : ℤ :=
  let yy : ℤ := if m ≤ 2 then (y : ℤ) - 1 else (y : ℤ)
  let era : ℤ := yy / 400
  let yoe : ℤ := yy - era * 400
  let mp : ℤ := ((m : ℤ) + 9) % 12
  let doy : ℤ := (153 * mp + 2) / 5 + (d : ℤ) - 1
  let doe : ℤ := yoe * 365 + yoe / 4 - yoe / 100 + doy
  era * 146097 + doe

/-- Digit value of a character, if it is a decimal digit. -/
def digit (c : Char) : Option ℕ :=
  if c.isDigit then some (c.toNat - 48) else none

/-- `datetime.strptime(s, "%Y-%m-%d").date()`, modelled for the canonical
zero-padded `YYYY-MM-DD` shape (the only shape `date_key`s take in this
pipeline); any other input is a parse failure.  Validates month and
day-of-month ranges including leap years, as `strptime` does. -/
def parseDate (s : String) : Option ℤ :=
  match s.data with
  | [y1, y2, y3, y4, h1, m1, m2, h2, d1, d2] =>
    if h1 = '-' ∧ h2 = '-' then
      match digit y1, digit y2, digit y3, digit y4, digit m1, digit m2, digit d1, digit d2 with
      | some a, some b, some c, some e, some f, some g, some i, some j =>
        let y := 1000 * a + 100 * b + 10 * c + e
        let m := 10 * f + g
        let d := 10 * i + j
        if 1 ≤ y ∧ 1 ≤ m ∧ m ≤ 12 ∧ 1 ≤ d ∧ d ≤ daysInMonth y m then
          some (toOrd y m d)
        else none
      | _, _, _, _, _, _, _, _ => none
    else none
  | _ => none

/-- `utils.recency_decay(date_key, today=None, half_life_days=7.0)`:
`0.5 ** (days / half_life)` with fail-open date parsing.  The ambient UTC
clock (`datetime.now(timezone.utc).date()`, used when `today` is absent,
empty, or unparseable) is passed explicitly as the ordinal `nowOrd`. -/
noncomputable def recency_decay (nowOrd : ℤ) (date_key : String)
    (today : Option String) (half_life_days : ℚ) : ℝ :=
  match parseDate (date_key.take 10) with
  | none => 1
  | some d =>
    let t : ℤ :=
      match today with
      | none => nowOrd
      | some s => if s = "" then nowOrd else (parseDate (s.take 10)).getD nowOrd
    let days : ℤ := t - d
    if days ≤ 0 then 1
    else ((1 : ℝ)/2) ^
      (((days : ℤ) : ℝ) / (((if half_life_days = 0 then 7 else half_life_days) : ℚ) : ℝ))

end Utils

/-! ### Auxiliary definitions used when stating and instantiating the claims -/

/-- Convenience constructor for test records (`news_type = "company"`, i.e.
type multiplier 1). -/
def mkRec (id : String) (s conf : ℚ) (adj : Option ℚ) : Agent1Record :=
  { news_id := id, sector := "Tech", tickers := [], sentiment_score := s,
    confidence := conf, impact_horizon := "", news_type := "company",
    rationale := "", evidence_phrases := [], date_key := some "2025-01-01",
    attribution_weight := none, adjusted_sentiment := adj, calibration_note := none }

/-- Sum of the attribution weights stored on a record list. -/
def sumAttr (recs : List Agent1Record) : ℚ :=
  (recs.map (fun r => r.attribution_weight.getD 0)).sum

/-- Total weight of the signals whose Python-`or` effective sentiment is
positive (the set the source's `pos_w` sums over when `wm > 0`). -/
noncomputable def posFilterSum (items : List Agent1Record) : ℝ :=
  ((items.filter (fun r => decide (0 < Agent2.effOr r))).map Agent2.wOf).sum

/-- Total weight of the signals whose Python-`or` effective sentiment is
negative. -/
noncomputable def negFilterSum (items : List Agent1Record) : ℝ :=
  ((items.filter (fun r => decide (Agent2.effOr r < 0))).map Agent2.wOf).sum

open Classical in
/-- The consensus as the claim reads it: the effective sentiment of every
signal is `adjusted_sentiment` whenever that field is present — including
when it equals `0.0` (i.e. `Agent2.effMean`). -/
noncomputable def claimConsensus (items : List Agent1Record) : ℝ :=
  (if 0 < Agent2.weightedMean items then
     ((items.filter (fun r => decide (0 < Agent2.effMean r))).map Agent2.wOf).sum
   else if Agent2.weightedMean items < 0 then
     ((items.filter (fun r => decide (Agent2.effMean r < 0))).map Agent2.wOf).sum
   else 0) / Agent2.totalWeight items

/-- Strict ascending order on grouping keys (lexicographic). -/
def keyLT (a b : String × String) : Prop := toLex a < toLex b

/-- C1 counterexample input: the first record has `adjusted_sentiment = 0.0`
(present but falsy) over a positive raw `sentiment_score`. -/
def exC1 : List Agent1Record := [mkRec "a1" 2 1 (some 0), mkRec "a2" 1 1 none]

/-- C4 counterexample input: five signals whose normalized weight `4e-7`
rounds down to `0` at six decimals, plus one carrying the rest. -/
def exC4 : List Agent1Record :=
  [mkRec "b1" 0 (4/10^7) none, mkRec "b2" 0 (4/10^7) none,
   mkRec "b3" 0 (4/10^7) none, mkRec "b4" 0 (4/10^7) none,
   mkRec "b5" 0 (4/10^7) none, mkRec "b6" 0 (999998/10^6) none]

/-- Single-record group used to instantiate the amended C4 theorem. -/
def exC4w : List Agent1Record := [mkRec "w4" 0 1 none]

/-- C6 witness input: strong weighted mean (`3/2`) but weak consensus
(`1/2 < 3/5`). -/
def exC6 : List Agent1Record := [mkRec "c1" 3 (1/2) none, mkRec "c2" 0 (1/2) none]

/-- C8 counterexample input: nine unit-confidence signals, so
`total_weight = 9` and the confidence saturates at exactly `0.9`. -/
def exC8 : List Agent1Record := List.replicate 9 (mkRec "d" 1 1 none)

/-- Single-record input used to instantiate the amended C8 theorem. -/
def exC8w : List Agent1Record := [mkRec "e" 1 1 none]

/-- C9 witness input: one complete record and one with an empty sector
(which `process_batch` silently drops). -/
def exC9 : List Agent1Record :=
  [mkRec "f1" 1 1 none,
   { mkRec "f2" 1 1 none with sector := "" }]

/-! ### Basic lemmas about the rounding, sign and clamp helpers -/

lemma rhe_sub_le {α : Type} [LinearOrderedField α] [FloorRing α] (x : α) :
    |((rhe x : ℤ) : α) - x| ≤ 1/2 := by
  have hfr : Int.fract x = x - (⌊x⌋ : α) := Int.self_sub_floor x ▸ rfl
  have h0 : (0 : α) ≤ Int.fract x := Int.fract_nonneg x
  have h1 : Int.fract x < 1 := Int.fract_lt_one x
  unfold rhe
  split_ifs with ha hb hc <;>
    [skip; skip; skip; skip] <;>
    push_cast <;>
    rw [abs_le] <;>
    constructor <;>
    linarith [hfr]

lemma roundTo_sub_le {α : Type} [LinearOrderedField α] [FloorRing α] (n : ℕ) (x : α) :
    |roundTo n x - x| ≤ 1/2 / 10^n := by
  have h10 : (0 : α) < 10^n := by positivity
  have key : roundTo n x - x = (((rhe (x * 10^n) : ℤ) : α) - x * 10^n) / 10^n := by
    rw [roundTo]; field_simp; ring
  rw [key, abs_div, abs_of_pos h10, div_le_div_iff_of_pos_right h10]
  exact rhe_sub_le (x * 10^n)

lemma roundTo_zero {α : Type} [LinearOrderedField α] [FloorRing α] (n : ℕ) :
    roundTo n (0 : α) = 0 := by
  simp [roundTo, rhe, Int.fract]

lemma sgn_eq_zero_iff (x : ℚ) : sgn x = 0 ↔ x = 0 := by
  unfold sgn
  split_ifs with h1 h2
  · constructor
    · intro hh; exact absurd hh (by decide)
    · intro hh; exact absurd (hh ▸ h1) (lt_irrefl 0)
  · constructor
    · intro hh; exact absurd hh (by decide)
    · intro hh; exact absurd (hh ▸ h2) (lt_irrefl 0)
  · constructor
    · intro _; linarith
    · intro _; rfl

lemma clamp_le_hi (x lo hi : ℚ) (h : lo ≤ hi) : clamp x lo hi ≤ hi :=
  max_le h (min_le_left hi x)

lemma le_clamp_lo (x lo hi : ℚ) : lo ≤ clamp x lo hi := le_max_left lo _

/-! ### C3: calibration gates evaluate in order, scale bounded in [0.5, 1.8] -/

/-- C3: `Calibrator` evaluates its gates in order: missing data or zero day
score return the day score with `no_calibration_data_or_zero`; a sign
mismatch or a move smaller than `0.3` returns it with
`no_calibration_mismatch_or_tiny_move`; otherwise the day score is scaled by
`clamp(|next_day_pct| / max(0.1, |day_score|), 0.5, 1.8)` — which always
lies in `[0.5, 1.8]` — with note `scaled_by_{scale rounded to 3 decimals}`. -/
theorem calibrate_gate_order (ds : ℚ) (ndp : Option ℚ) :
    (ndp = none ∨ ds = 0 →
      Agent1.calibrate_to_next_day ds ndp = (ds, CalNote.noCalibrationDataOrZero)) ∧
    (∀ p, ndp = some p → ds ≠ 0 → (sgn ds ≠ sgn p ∨ |p| < 3/10) →
      Agent1.calibrate_to_next_day ds ndp = (ds, CalNote.noCalibrationMismatchOrTiny)) ∧
    (∀ p, ndp = some p → ds ≠ 0 → sgn ds = sgn p → 3/10 ≤ |p| →
      Agent1.calibrate_to_next_day ds ndp =
        (ds * clamp (|p| / max (1/10) |ds|) (1/2) (9/5),
         CalNote.scaledBy (roundTo 3 (clamp (|p| / max (1/10) |ds|) (1/2) (9/5)))) ∧
      1/2 ≤ clamp (|p| / max (1/10) |ds|) (1/2) (9/5) ∧
      clamp (|p| / max (1/10) |ds|) (1/2) (9/5) ≤ 9/5) := by
  refine ⟨?_, ?_, ?_⟩
  · rintro (h | h)
    · subst h; rfl
    · subst h
      cases ndp with
      | none => rfl
      | some p => simp [Agent1.calibrate_to_next_day]
  · rintro p rfl hds hgate
    have hz : ¬(ds = 0 ∨ sgn ds = 0) := by
      rintro (h | h)
      · exact hds h
      · exact hds ((sgn_eq_zero_iff ds).mp h)
    simp only [Agent1.calibrate_to_next_day, if_neg hz, if_pos hgate]
  · rintro p rfl hds hsg hbig
    have hz : ¬(ds = 0 ∨ sgn ds = 0) := by
      rintro (h | h)
      · exact hds h
      · exact hds ((sgn_eq_zero_iff ds).mp h)
    have hgate : ¬(sgn ds ≠ sgn p ∨ |p| < 3/10) := by
      rintro (h | h)
      · exact h hsg
      · exact absurd hbig (not_le.mpr h)
    refine ⟨?_, le_clamp_lo _ _ _, clamp_le_hi _ _ _ (by norm_num)⟩
    simp only [Agent1.calibrate_to_next_day, if_neg hz, if_neg hgate]

/-- Witness for C3: a fully matching calibration at `day_score = 1`,
`next_day_pct = 1`. -/
theorem calibrate_gate_order_witness :
    Agent1.calibrate_to_next_day 1 (some 1) =
      (1 * clamp (|(1:ℚ)| / max (1/10) |(1:ℚ)|) (1/2) (9/5),
       CalNote.scaledBy (roundTo 3 (clamp (|(1:ℚ)| / max (1/10) |(1:ℚ)|) (1/2) (9/5)))) :=
  ((calibrate_gate_order 1 (some 1)).2.2 1 rfl (by norm_num) rfl (by norm_num)).1

/-! ### C5: redistribution is scale-consistent -/

/-- C5: when `day_score_raw ≠ 0`, every record's `adjusted_sentiment` is
`round(sentiment_score * (calibrated / raw), 4)` — so it differs from the
exact scaled sentiment by at most half a unit in the fourth decimal — and
when `day_score_raw = 0` every record's `adjusted_sentiment` equals its own
`sentiment_score` with note `no_redistribution_zero_day_score`. -/
theorem redistribute_scale_consistent (records : List Agent1Record)
    (original calibrated : ℚ) :
    (original = 0 →
      Agent1.redistribute records original calibrated =
        records.map (fun r =>
          { r with adjusted_sentiment := some r.sentiment_score,
                   calibration_note := some CalNote.noRedistributionZeroDayScore })) ∧
    (original ≠ 0 →
      Agent1.redistribute records original calibrated =
        records.map (fun r =>
          { r with adjusted_sentiment :=
                     some (roundTo 4 (r.sentiment_score * (calibrated / original))),
                   calibration_note :=
                     some (CalNote.redistributedScale (roundTo 3 (calibrated / original))) }) ∧
      ∀ r ∈ records,
        |roundTo 4 (r.sentiment_score * (calibrated / original)) -
            r.sentiment_score * (calibrated / original)| ≤ 1/2 / 10^4) := by
  constructor
  · intro h
    simp [Agent1.redistribute, h]
  · intro h
    exact ⟨by simp [Agent1.redistribute, h], fun r _ => roundTo_sub_le 4 _⟩

/-- Witness for C5: a two-record group scaled by `2 / 1`. -/
theorem redistribute_scale_consistent_witness :
    Agent1.redistribute [mkRec "w5" 1 1 none] 1 2 =
      [mkRec "w5" 1 1 none].map (fun r =>
        { r with adjusted_sentiment := some (roundTo 4 (r.sentiment_score * (2 / 1))),
                 calibration_note :=
                   some (CalNote.redistributedScale (roundTo 3 (2 / 1))) }) :=
  ((redistribute_scale_consistent [mkRec "w5" 1 1 none] 1 2).2 (by norm_num)).1

/-! ### C4: attribution weights -/

lemma list_sum_sub_bound {β : Type} (l : List β) (f g : β → ℚ) (c : ℚ)
    (h : ∀ x ∈ l, |f x - g x| ≤ c) :
    |(l.map f).sum - (l.map g).sum| ≤ l.length * c := by
  induction l with
  | nil => simp
  | cons a l ih =>
    have ha := h a (List.mem_cons_self a l)
    have hl := ih (fun x hx => h x (List.mem_cons_of_mem a hx))
    have key : (f a + (l.map f).sum) - (g a + (l.map g).sum) =
        (f a - g a) + ((l.map f).sum - (l.map g).sum) := by ring
    simp only [List.map_cons, List.sum_cons, List.length_cons, key]
    calc |(f a - g a) + ((l.map f).sum - (l.map g).sum)|
        ≤ |f a - g a| + |(l.map f).sum - (l.map g).sum| := abs_add _ _
      _ ≤ c + l.length * c := add_le_add ha hl
      _ = ((l.length + 1 : ℕ) : ℚ) * c := by push_cast; ring

lemma list_sum_map_div {β : Type} (l : List β) (f : β → ℚ) (T : ℚ) :
    (l.map (fun x => f x / T)).sum = (l.map f).sum / T := by
  simp only [div_eq_mul_inv]
  exact List.sum_map_mul_right l f T⁻¹

/-- Amended C4: for a non-empty group with non-zero total raw weight the
unrounded normalized weights sum to exactly 1, and the stored (6-decimal
rounded) `attribution_weight` values sum to 1 within `n * 5e-7` where `n` is
the group size (the per-record rounding tolerance; for `n > 2` this can
exceed the claimed uniform `1e-6`, see the counterexample); in the all-zero
raw weight case every stored weight is 0 and the day score is 0. -/
theorem attribution_weights_sum (records : List Agent1Record) (hne : records ≠ []) :
    ((records.map Agent1.rawWeight).sum ≠ 0 →
      (records.map (fun r => Agent1.rawWeight r / (records.map Agent1.rawWeight).sum)).sum = 1 ∧
      |sumAttr (Agent1.aggregate_same_day records).2 - 1| ≤
        records.length * (1/2 / 10^6)) ∧
    ((∀ r ∈ records, Agent1.rawWeight r = 0) →
      (∀ r ∈ (Agent1.aggregate_same_day records).2, r.attribution_weight = some 0) ∧
      (Agent1.aggregate_same_day records).1 = 0) := by
  constructor
  · intro hs
    have hnorm : (records.map (fun r =>
        Agent1.rawWeight r / (records.map Agent1.rawWeight).sum)).sum = 1 := by
      rw [list_sum_map_div]
      exact div_self hs
    refine ⟨hnorm, ?_⟩
    have hsum : sumAttr (Agent1.aggregate_same_day records).2 =
        (records.map (fun r =>
          roundTo 6 (Agent1.rawWeight r / (records.map Agent1.rawWeight).sum))).sum := by
      simp only [Agent1.aggregate_same_day, if_neg hne, if_neg hs, sumAttr, List.map_map]
      rfl
    rw [hsum]
    have := list_sum_sub_bound records
      (fun r => roundTo 6 (Agent1.rawWeight r / (records.map Agent1.rawWeight).sum))
      (fun r => Agent1.rawWeight r / (records.map Agent1.rawWeight).sum)
      (1/2 / 10^6)
      (fun r _ => roundTo_sub_le 6 _)
    rw [hnorm] at this
    exact this
  · intro hz
    have hS0 : (records.map Agent1.rawWeight).sum = 0 :=
      List.sum_eq_zero (by
        intro y hy
        obtain ⟨r, hr, rfl⟩ := List.mem_map.mp hy
        exact hz r hr)
    constructor
    · intro r' hr'
      simp only [Agent1.aggregate_same_day, if_neg hne, if_pos hS0] at hr'
      obtain ⟨r, hr, rfl⟩ := List.mem_map.mp hr'
      simp [hz r hr, roundTo_zero]
    · simp only [Agent1.aggregate_same_day, if_neg hne]
      apply List.sum_eq_zero
      intro y hy
      obtain ⟨r, hr, rfl⟩ := List.mem_map.mp hy
      simp [hz r hr]

lemma mult_company : NEWS_TYPE_MULTIPLIER "company" = 1 := rfl

lemma rawWeight_mkRec0 (id : String) (conf : ℚ) (adj : Option ℚ) :
    Agent1.rawWeight (mkRec id 0 conf adj) = conf / 2 := by
  simp [Agent1.rawWeight, Agent1.magOf, mkRec, mult_company]
  ring

/-- Witness for the amended C4 at a concrete one-record group. -/
theorem attribution_weights_sum_witness :
    |sumAttr (Agent1.aggregate_same_day exC4w).2 - 1| ≤ exC4w.length * (1/2 / 10^6) :=
  ((attribution_weights_sum exC4w (by simp [exC4w])).1 (by
    norm_num [exC4w, mkRec, Agent1.rawWeight, Agent1.magOf, mult_company, min_def])).2

/-- Counterexample to C4 as stated: a six-record group with non-zero total
raw weight whose stored attribution weights sum to `0.999998`, i.e. off by
`2e-6 > 1e-6`. -/
theorem attribution_tolerance_ce :
    (exC4.map Agent1.rawWeight).sum ≠ 0 ∧
    1/10^6 < |sumAttr (Agent1.aggregate_same_day exC4).2 - 1| := by
  have hS : (exC4.map Agent1.rawWeight).sum = 1/2 := by
    norm_num [exC4, rawWeight_mkRec0]
  have hs0 : (exC4.map Agent1.rawWeight).sum ≠ 0 := by rw [hS]; norm_num
  have hne : exC4 ≠ [] := by simp [exC4]
  refine ⟨hs0, ?_⟩
  have hsum : sumAttr (Agent1.aggregate_same_day exC4).2 =
      (exC4.map (fun r =>
        roundTo 6 (Agent1.rawWeight r / (exC4.map Agent1.rawWeight).sum))).sum := by
    simp only [Agent1.aggregate_same_day, if_neg hne, if_neg hs0, sumAttr, List.map_map]
    rfl
  have ha : roundTo 6 ((1:ℚ)/2500000) = 0 := by norm_num [roundTo, rhe, Int.fract]
  have hb : roundTo 6 ((499999:ℚ)/500000) = 499999/500000 := by
    norm_num [roundTo, rhe, Int.fract]
  rw [hsum, hS]
  norm_num [exC4, rawWeight_mkRec0, ha, hb]
  rw [abs_of_pos (by norm_num : (0:ℚ) < 1/500000)]
  norm_num

/-! ### C2: utils.recency_decay half-life weighting -/

lemma recency_parse_fail (now : ℤ) (dk : String) (today : Option String) (hl : ℚ)
    (h : Utils.parseDate (dk.take 10) = none) :
    Utils.recency_decay now dk today hl = 1 := by
  unfold Utils.recency_decay
  rw [h]

lemma recency_formula (now : ℤ) (dk t : String) (d o : ℤ) (hl : ℚ) (hhl : hl ≠ 0)
    (hd : Utils.parseDate (dk.take 10) = some d) (ht : t ≠ "")
    (ho : Utils.parseDate (t.take 10) = some o) :
    Utils.recency_decay now dk (some t) hl =
      ((1:ℝ)/2) ^ (((max 0 (o - d) : ℤ) : ℝ) / (hl : ℝ)) := by
  unfold Utils.recency_decay
  rw [hd]
  dsimp only
  rw [if_neg ht, ho]
  simp only [Option.getD_some, if_neg hhl]
  by_cases hle : o - d ≤ 0
  · rw [if_pos hle, max_eq_left hle]
    simp [Real.rpow_zero]
  · rw [if_neg hle, max_eq_right (le_of_lt (not_le.mp hle))]

set_option maxHeartbeats 1600000 in
/-- C2: the RecencyWeighter (`utils.recency_decay`) computes
`0.5 ^ (age_days / half_life_days)` with `age_days = max(0, today - signal
date)`; in particular a 7-day-old signal at half-life 7 weighs exactly `0.5`,
a same-day signal weighs exactly `1.0`, and a malformed / unparseable
`date_key` weighs exactly `1.0` (fail-open) rather than raising. -/
theorem recency_weight_half_life :
    (∀ (now : ℤ) (dk : String) (today : Option String) (hl : ℚ),
       Utils.parseDate (dk.take 10) = none → Utils.recency_decay now dk today hl = 1) ∧
    (∀ (now : ℤ) (dk t : String) (d o : ℤ) (hl : ℚ), hl ≠ 0 →
       Utils.parseDate (dk.take 10) = some d → t ≠ "" →
       Utils.parseDate (t.take 10) = some o →
       Utils.recency_decay now dk (some t) hl =
         ((1:ℝ)/2) ^ (((max 0 (o - d) : ℤ) : ℝ) / (hl : ℝ))) ∧
    Utils.recency_decay 0 "2025-09-19" (some "2025-09-26") 7 = 1/2 ∧
    Utils.recency_decay 0 "2025-09-26" (some "2025-09-26") 7 = 1 ∧
    Utils.recency_decay 0 "not-a-date" (some "2025-09-26") 7 = 1 := by
  refine ⟨recency_parse_fail, recency_formula, ?_, ?_, ?_⟩
  · have h := recency_formula 0 "2025-09-19" "2025-09-26" 739818 739825 7
      (by norm_num) (by decide) (by decide) (by decide)
    rw [h, show ((max 0 ((739825:ℤ) - 739818) : ℤ) : ℝ) / ((7:ℚ) : ℝ) = 1 by
      push_cast; norm_num, Real.rpow_one]
  · have h := recency_formula 0 "2025-09-26" "2025-09-26" 739825 739825 7
      (by norm_num) (by decide) (by decide) (by decide)
    rw [h, show ((max 0 ((739825:ℤ) - 739825) : ℤ) : ℝ) / ((7:ℚ) : ℝ) = 0 by
      push_cast; norm_num, Real.rpow_zero]
  · exact recency_parse_fail 0 "not-a-date" (some "2025-09-26") 7 (by decide)

set_option maxHeartbeats 800000 in
/-- Witness for C2: a malformed `date_key` weighs exactly 1. -/
theorem recency_weight_half_life_witness :
    Utils.recency_decay 0 "bad-date" none 7 = 1 :=
  recency_weight_half_life.1 0 "bad-date" none 7 (by decide)

/-! ### Agent2 helper lemmas -/

lemma recency_decay_zero : Types.recency_decay 0 = 1 := by
  simp [Types.recency_decay]

lemma wOf_eq (r : Agent1Record) : Agent2.wOf r = (r.confidence : ℝ) := by
  simp [Agent2.wOf, recency_decay_zero]

/-! ### C7: zero total weight yields the fixed fallback decision -/

/-- C7: whenever the total weight is zero (in particular on the empty list),
`decide` returns exactly the fixed fallback
`{NO_IMPACT, 0.0, 0.0, 0.2, "Insufficient evidence.", []}`; the embedding is
a total function, so no input raises. -/
theorem decide_zero_weight_fallback (items : List Agent1Record)
    (now_iso : Option String) (up down minc : ℝ)
    (h : Agent2.totalWeight items = 0) :
    Agent2.decide items now_iso up down minc = Agent2.fallbackDecision := by
  simp [Agent2.decide, h]

/-- Witness for C7: the empty signal list. -/
theorem decide_zero_weight_fallback_witness :
    Agent2.decide [] none (4/5) (-4/5) (3/5) = Agent2.fallbackDecision :=
  decide_zero_weight_fallback [] none (4/5) (-4/5) (3/5)
    (by simp [Agent2.totalWeight])

/-! ### C10: decide is insensitive to its now_iso argument -/

/-- C10: `decide` returns an identical decision for any two `now_iso`
values: the parsed `now` is never consulted because `recency_decay` is
always invoked with the constant age `0.0`, so every signal's weight is
exactly its confidence — the recency weighting is an effective no-op. -/
theorem decide_now_iso_noop (items : List Agent1Record) (n1 n2 : Option String)
    (up down minc : ℝ) :
    Agent2.decide items n1 up down minc = Agent2.decide items n2 up down minc ∧
    ∀ r : Agent1Record, Agent2.wOf r = (r.confidence : ℝ) :=
  ⟨rfl, wOf_eq⟩

/-! ### C8: confidence is saturating — and reaches 0.9 at total weight 9 -/

lemma totalWeight_exC8 : Agent2.totalWeight exC8 = 9 := by
  simp [Agent2.totalWeight, wOf_eq, exC8, mkRec, List.map_replicate, List.sum_replicate]
  norm_num

/-- Amended C8: for total weight `t > 0` the returned confidence is
`round(min(0.9, t/(t+1)), 3)`; the pre-rounding value lies in `[0, 0.9]`, is
monotone non-decreasing in `t`, and is strictly below `0.9` **iff** `t < 9`
— at `t ≥ 9` it equals `0.9` exactly, so the cap is attained, not merely
approached. -/
theorem decide_confidence_saturating (items : List Agent1Record) (n : Option String)
    (h : 0 < Agent2.totalWeight items) :
    (Agent2.decide items n (4/5) (-4/5) (3/5)).confidence =
      roundTo 3 (Agent2.confidenceOf (Agent2.totalWeight items)) ∧
    0 ≤ Agent2.confidenceOf (Agent2.totalWeight items) ∧
    Agent2.confidenceOf (Agent2.totalWeight items) ≤ 9/10 ∧
    (∀ t1 t2 : ℝ, 0 < t1 → t1 ≤ t2 →
      Agent2.confidenceOf t1 ≤ Agent2.confidenceOf t2) ∧
    (Agent2.confidenceOf (Agent2.totalWeight items) < 9/10 ↔
      Agent2.totalWeight items < 9) := by
  have hne := ne_of_gt h
  have ht1 : (0:ℝ) < Agent2.totalWeight items + 1 := by linarith
  refine ⟨by simp [Agent2.decide, if_neg hne], ?_, min_le_left _ _, ?_, ?_⟩
  · exact le_min (by norm_num) (div_nonneg h.le ht1.le)
  · intro t1 t2 h1 h12
    have h2 : (0:ℝ) < t1 + 1 := by linarith
    have h3 : (0:ℝ) < t2 + 1 := by linarith
    unfold Agent2.confidenceOf
    apply min_le_min le_rfl
    rw [div_le_div_iff₀ h2 h3]
    nlinarith
  · unfold Agent2.confidenceOf
    rw [min_lt_iff]
    constructor
    · rintro (hc | hc)
      · exact absurd hc (lt_irrefl _)
      · rw [div_lt_iff₀ ht1] at hc; linarith
    · intro hc
      right
      rw [div_lt_iff₀ ht1]; linarith

/-- Witness for the amended C8 at a single unit-confidence signal. -/
theorem decide_confidence_saturating_witness :
    (Agent2.decide exC8w none (4/5) (-4/5) (3/5)).confidence =
      roundTo 3 (Agent2.confidenceOf (Agent2.totalWeight exC8w)) :=
  (decide_confidence_saturating exC8w none (by
    norm_num [Agent2.totalWeight, wOf_eq, exC8w, mkRec])).1

/-- Counterexample to C8 as stated: nine unit-confidence signals give
`total_weight = 9 > 0`, yet the returned confidence equals `0.9` exactly —
it is not strictly below `0.9`. -/
theorem confidence_reaches_cap_ce :
    0 < Agent2.totalWeight exC8 ∧
    (Agent2.decide exC8 none (4/5) (-4/5) (3/5)).confidence = 9/10 := by
  have h9 := totalWeight_exC8
  have hne : Agent2.totalWeight exC8 ≠ 0 := by rw [h9]; norm_num
  constructor
  · rw [h9]; norm_num
  · have hc : Agent2.confidenceOf 9 = 9/10 := by
      norm_num [Agent2.confidenceOf, min_def]
    simp only [Agent2.decide, if_neg hne]
    rw [h9, hc]
    norm_num [roundTo, rhe, Int.fract]

/-! ### C6: the decision label requires both gates simultaneously -/

/-- C6: with the default thresholds (`up = 0.8`, `down = -0.8`,
`min_consensus = 0.6`) and positive total weight, the label is `UP` iff
`weighted_mean ≥ 0.8` **and** `consensus ≥ 0.6`, `DOWN` iff
`weighted_mean ≤ -0.8` and `consensus ≥ 0.6`, and `NO_IMPACT` exactly
otherwise — a strong mean with weak agreement yields `NO_IMPACT`. -/
theorem decide_label_both_gates (items : List Agent1Record) (n : Option String)
    (h : 0 < Agent2.totalWeight items) :
    ((Agent2.decide items n (4/5) (-4/5) (3/5)).label = "UP" ↔
      4/5 ≤ Agent2.weightedMean items ∧ 3/5 ≤ Agent2.consensusOf items) ∧
    ((Agent2.decide items n (4/5) (-4/5) (3/5)).label = "DOWN" ↔
      Agent2.weightedMean items ≤ -4/5 ∧ 3/5 ≤ Agent2.consensusOf items) ∧
    ((Agent2.decide items n (4/5) (-4/5) (3/5)).label = "NO_IMPACT" ↔
      ¬(4/5 ≤ Agent2.weightedMean items ∧ 3/5 ≤ Agent2.consensusOf items) ∧
      ¬(Agent2.weightedMean items ≤ -4/5 ∧ 3/5 ≤ Agent2.consensusOf items)) := by
  have e1 : ("UP" : String) ≠ "DOWN" := by decide
  have e2 : ("UP" : String) ≠ "NO_IMPACT" := by decide
  have e3 : ("DOWN" : String) ≠ "NO_IMPACT" := by decide
  simp only [Agent2.decide, if_neg h.ne']
  unfold Agent2.labelOf
  by_cases hA : (4/5 : ℝ) ≤ Agent2.weightedMean items ∧
      (3/5 : ℝ) ≤ Agent2.consensusOf items
  · have hB : ¬(Agent2.weightedMean items ≤ -4/5 ∧
        (3/5 : ℝ) ≤ Agent2.consensusOf items) := by
      rintro ⟨hb, -⟩
      linarith [hA.1]
    rw [if_pos hA]
    refine ⟨iff_of_true rfl hA, iff_of_false e1 hB, iff_of_false e2 ?_⟩
    rintro ⟨ha, -⟩
    exact ha hA
  · by_cases hB : Agent2.weightedMean items ≤ -4/5 ∧
        (3/5 : ℝ) ≤ Agent2.consensusOf items
    · rw [if_neg hA, if_pos hB]
      refine ⟨iff_of_false (fun hh => e1 hh.symm) hA, iff_of_true rfl hB,
        iff_of_false e3 ?_⟩
      rintro ⟨-, hb⟩
      exact hb hB
    · rw [if_neg hA, if_neg hB]
      exact ⟨iff_of_false (fun hh => e2 hh.symm) hA,
        iff_of_false (fun hh => e3 hh.symm) hB, iff_of_true rfl ⟨hA, hB⟩⟩

/-- Witness for C6: a two-signal set with `weighted_mean = 1.5 ≥ 0.8` but
`consensus = 0.5 < 0.6` is labelled `NO_IMPACT`. -/
theorem decide_label_both_gates_witness :
    (Agent2.decide exC6 none (4/5) (-4/5) (3/5)).label = "NO_IMPACT" := by
  have h : (0:ℝ) < Agent2.totalWeight exC6 := by
    norm_num [Agent2.totalWeight, wOf_eq, exC6, mkRec]
  have hwm : Agent2.weightedMean exC6 = 3/2 := by
    norm_num [Agent2.weightedMean, Agent2.weightedSum, Agent2.totalWeight, wOf_eq,
      Agent2.effMean, exC6, mkRec]
  have hpos : Agent2.posWeight exC6 = 1/2 := by
    simp only [Agent2.posWeight, hwm]
    simp only [exC6, List.map_cons, List.map_nil, List.sum_cons, List.sum_nil, wOf_eq]
    norm_num [Agent2.effOr, mkRec]
  have hcons : Agent2.consensusOf exC6 = 1/2 := by
    rw [Agent2.consensusOf, hwm, hpos, if_pos (by norm_num : (0:ℝ) < 3/2)]
    norm_num [Agent2.totalWeight, wOf_eq, exC6, mkRec]
  exact (decide_label_both_gates exC6 none h).2.2.mpr
    (by rw [hwm, hcons]; norm_num)

/-! ### C1: which effective sentiment each computation uses -/

lemma sum_map_ite_filter (l : List Agent1Record) (p : Agent1Record → Prop)
    [DecidablePred p] (f : Agent1Record → ℝ) :
    (l.map (fun r => if p r then f r else 0)).sum =
      ((l.filter (fun r => decide (p r))).map f).sum := by
  induction l with
  | nil => simp
  | cons a l ih =>
    by_cases hp : p a
    · simp [hp, ih]
    · simp [hp, ih]

lemma posWeight_eq (items : List Agent1Record) :
    Agent2.posWeight items =
      if 0 < Agent2.weightedMean items then posFilterSum items else 0 := by
  by_cases hw : 0 < Agent2.weightedMean items
  · rw [if_pos hw]
    unfold Agent2.posWeight posFilterSum
    rw [← sum_map_ite_filter items (fun r => 0 < Agent2.effOr r) Agent2.wOf]
    simp only [eq_true hw, and_true]
  · rw [if_neg hw]
    apply List.sum_eq_zero
    intro y hy
    obtain ⟨r, -, rfl⟩ := List.mem_map.mp hy
    simp [hw]

lemma negWeight_eq (items : List Agent1Record) :
    Agent2.negWeight items =
      if Agent2.weightedMean items < 0 then negFilterSum items else 0 := by
  by_cases hw : Agent2.weightedMean items < 0
  · rw [if_pos hw]
    unfold Agent2.negWeight negFilterSum
    rw [← sum_map_ite_filter items (fun r => Agent2.effOr r < 0) Agent2.wOf]
    simp only [eq_true hw, and_true]
  · rw [if_neg hw]
    apply List.sum_eq_zero
    intro y hy
    obtain ⟨r, -, rfl⟩ := List.mem_map.mp hy
    simp [hw]

/-- Amended C1: the weighted mean uses `adjusted_sentiment` whenever that
field is present — including when it equals `0.0`; the consensus sums and
the `top_signals` ranking instead use the Python-`or` effective sentiment
(`adjusted_sentiment` only when present **and non-zero**, the raw
`sentiment_score` otherwise); with that effective sentiment, consensus is
`(pos_weight if wm>0 else neg_weight if wm<0 else 0) / total_weight`. -/
theorem decide_effective_sentiment (items : List Agent1Record) (n : Option String)
    (h : 0 < Agent2.totalWeight items) :
    (Agent2.decide items n (4/5) (-4/5) (3/5)).weighted_mean =
      roundTo 3 ((items.map (fun r => Agent2.wOf r * (Agent2.effMean r : ℝ))).sum /
        Agent2.totalWeight items) ∧
    (Agent2.decide items n (4/5) (-4/5) (3/5)).consensus =
      roundTo 3 ((if 0 < Agent2.weightedMean items then posFilterSum items
        else if Agent2.weightedMean items < 0 then negFilterSum items else 0) /
        Agent2.totalWeight items) ∧
    (Agent2.decide items n (4/5) (-4/5) (3/5)).top_signals =
      ((List.insertionSort Agent2.relTop items).take 3).map (fun r => r.news_id) := by
  simp only [Agent2.decide, if_neg h.ne']
  refine ⟨rfl, ?_, rfl⟩
  unfold Agent2.consensusOf
  rw [posWeight_eq, negWeight_eq]
  by_cases h1 : 0 < Agent2.weightedMean items
  · simp [h1]
  · by_cases h2 : Agent2.weightedMean items < 0
    · simp [h1, h2]
    · simp [h1, h2]

/-- Witness for the amended C1 at a concrete two-record input. -/
theorem decide_effective_sentiment_witness :
    (Agent2.decide exC1 none (4/5) (-4/5) (3/5)).consensus =
      roundTo 3 ((if 0 < Agent2.weightedMean exC1 then posFilterSum exC1
        else if Agent2.weightedMean exC1 < 0 then negFilterSum exC1 else 0) /
        Agent2.totalWeight exC1) :=
  (decide_effective_sentiment exC1 none (by
    norm_num [Agent2.totalWeight, wOf_eq, exC1, mkRec])).2.1

/-- Counterexample to C1 as stated: with a signal whose
`adjusted_sentiment` is present but equal to `0.0` (raw score `2`) next to
an uncalibrated positive signal, the code's consensus is `1` (the `or`
falls back to the raw score), while the claim's reading — adjusted
sentiment used whenever present, including `0.0` — predicts consensus
`0.5`. -/
theorem consensus_effective_ce :
    (Agent2.decide exC1 none (4/5) (-4/5) (3/5)).consensus = 1 ∧
    claimConsensus exC1 = 1/2 := by
  have htot : Agent2.totalWeight exC1 = 2 := by
    norm_num [Agent2.totalWeight, wOf_eq, exC1, mkRec]
  have hne : Agent2.totalWeight exC1 ≠ 0 := by rw [htot]; norm_num
  have hwm : Agent2.weightedMean exC1 = 1/2 := by
    norm_num [Agent2.weightedMean, Agent2.weightedSum, Agent2.totalWeight, wOf_eq,
      Agent2.effMean, exC1, mkRec]
  have hpos : Agent2.posWeight exC1 = 2 := by
    simp only [Agent2.posWeight, hwm]
    simp only [exC1, List.map_cons, List.map_nil, List.sum_cons, List.sum_nil, wOf_eq]
    norm_num [Agent2.effOr, mkRec]
  constructor
  · have hcons : Agent2.consensusOf exC1 = 1 := by
      unfold Agent2.consensusOf
      rw [hwm, hpos, htot, if_pos (by norm_num : (0:ℝ) < 1/2)]
      norm_num
    simp only [Agent2.decide, if_neg hne, hcons]
    norm_num [roundTo, rhe, Int.fract]
  · unfold claimConsensus
    rw [hwm, htot, if_pos (by norm_num : (0:ℝ) < 1/2)]
    have hfil : exC1.filter (fun r => decide (0 < Agent2.effMean r)) =
        [mkRec "a2" 1 1 none] := by
      simp [exC1, Agent2.effMean, mkRec]
    rw [hfil]
    norm_num [wOf_eq, mkRec]

/-! ### C9: batch orchestration — drop, sort, group, pipeline per key -/

lemma keyLT_of_not_recLE {a b : Agent1Record} (h : ¬ Agent1.recLE a b) :
    keyLT (Agent1.keyOf b) (Agent1.keyOf a) :=
  not_le.mp h

lemma keyLT_ne {x y : String × String} (h : keyLT x y) : x ≠ y :=
  fun hh => absurd (hh ▸ h) (lt_irrefl _)

lemma keyLT_trans {x y z : String × String} (h1 : keyLT x y) (h2 : keyLT y z) :
    keyLT x z := lt_trans h1 h2

lemma orderedInsert_filter_key (a : Agent1Record) (m : List Agent1Record)
    (k : String × String) :
    (m.orderedInsert Agent1.recLE a).filter (fun r => decide (Agent1.keyOf r = k)) =
      if Agent1.keyOf a = k then
        a :: m.filter (fun r => decide (Agent1.keyOf r = k))
      else m.filter (fun r => decide (Agent1.keyOf r = k)) := by
  induction m with
  | nil =>
    by_cases h : Agent1.keyOf a = k <;> simp [List.orderedInsert, h]
  | cons b m ih =>
    rw [List.orderedInsert]
    by_cases hle : Agent1.recLE a b
    · rw [if_pos hle]
      by_cases h : Agent1.keyOf a = k <;> simp [List.filter_cons, h]
    · rw [if_neg hle]
      have hne : Agent1.keyOf b ≠ Agent1.keyOf a := keyLT_ne (keyLT_of_not_recLE hle)
      by_cases hbk : Agent1.keyOf b = k
      · have hak : Agent1.keyOf a ≠ k := fun hh => hne (hbk.trans hh.symm)
        simp [List.filter_cons, hbk, hak, ih]
      · by_cases h : Agent1.keyOf a = k <;> simp [List.filter_cons, hbk, h, ih]

lemma insertionSort_filter_key (l : List Agent1Record) (k : String × String) :
    (List.insertionSort Agent1.recLE l).filter
        (fun r => decide (Agent1.keyOf r = k)) =
      l.filter (fun r => decide (Agent1.keyOf r = k)) := by
  induction l with
  | nil => rfl
  | cons a l ih =>
    rw [List.insertionSort, orderedInsert_filter_key]
    by_cases h : Agent1.keyOf a = k
    · simp [List.filter_cons, h, ih]
    · simp [List.filter_cons, h, ih]

lemma groupRuns_cons_eq (a : Agent1Record) (l : List Agent1Record)
    (k : String × String) (g : List Agent1Record)
    (t : List ((String × String) × List Agent1Record))
    (hgl : Agent1.groupRuns l = (k, g) :: t) :
    Agent1.groupRuns (a :: l) =
      if Agent1.keyOf a = k then (k, a :: g) :: t
      else (Agent1.keyOf a, [a]) :: (k, g) :: t := by
  rw [Agent1.groupRuns, hgl]

lemma groupRuns_sorted (l : List Agent1Record)
    (hs : List.Sorted Agent1.recLE l) :
    List.Pairwise (fun a b => keyLT a.1 b.1) (Agent1.groupRuns l) ∧
    (∀ kg ∈ Agent1.groupRuns l,
      kg.2 = l.filter (fun r => decide (Agent1.keyOf r = kg.1)) ∧ kg.2 ≠ []) ∧
    (∀ r ∈ l, Agent1.keyOf r ∈ (Agent1.groupRuns l).map Prod.fst) ∧
    (∀ k ∈ (Agent1.groupRuns l).map Prod.fst,
      ∃ r ∈ l, Agent1.keyOf r = k) := by
  induction l with
  | nil => simp [Agent1.groupRuns]
  | cons a l ih =>
    obtain ⟨hall, hs'⟩ := List.sorted_cons.mp hs
    obtain ⟨ih1, ih2, ih3, ih4⟩ := ih hs'
    cases hgl : Agent1.groupRuns l with
    | nil =>
      have hl : l = [] := by
        cases l with
        | nil => rfl
        | cons b l2 =>
          have := ih3 b (List.mem_cons_self _ _)
          rw [hgl] at this
          exact absurd this (by simp)
      subst hl
      refine ⟨by simp [Agent1.groupRuns], ?_, ?_, ?_⟩
      · intro kg hkg
        rw [Agent1.groupRuns] at hkg
        simp only [Agent1.groupRuns, List.mem_singleton] at hkg
        subst hkg
        simp [List.filter_cons]
      · intro r hr
        rw [List.mem_singleton] at hr
        subst hr
        simp [Agent1.groupRuns]
      · intro k hk
        simp only [Agent1.groupRuns, List.map_cons, List.map_nil,
          List.mem_singleton] at hk
        exact ⟨a, List.mem_singleton.mpr rfl, hk.symm⟩
    | cons kg0 t =>
      obtain ⟨k, g⟩ := kg0
      rw [hgl] at ih1 ih2 ih3 ih4
      have hstep := groupRuns_cons_eq a l k g t hgl
      have hpair := List.pairwise_cons.mp ih1
      -- the head key occurs in l
      obtain ⟨rk, hrk, hrkey⟩ := ih4 k (by simp)
      by_cases hk : Agent1.keyOf a = k
      · rw [hstep, if_pos hk]
        refine ⟨?_, ?_, ?_, ?_⟩
        · exact List.pairwise_cons.mpr ⟨fun y hy => hpair.1 y hy, hpair.2⟩
        · intro kg' hkg'
          rcases List.mem_cons.mp hkg' with h' | h'
          · subst h'
            have hg := ih2 (k, g) (by simp)
            refine ⟨?_, by simp⟩
            simp only
            rw [List.filter_cons, if_pos (by simp [hk])]
            exact congrArg (List.cons a) hg.1
          · have h2 := ih2 kg' (List.mem_cons_of_mem _ h')
            have hkne : k ≠ kg'.1 := keyLT_ne (hpair.1 kg' h')
            refine ⟨?_, h2.2⟩
            rw [h2.1, List.filter_cons, if_neg (by simp [hk, hkne])]
        · intro r hr
          rcases List.mem_cons.mp hr with h' | h'
          · subst h'
            simp [hk]
          · have := ih3 r h'
            simpa using this
        · intro k' hk'
          simp only [List.map_cons] at hk'
          rcases List.mem_cons.mp hk' with h' | h'
          · exact ⟨a, List.mem_cons_self _ _, h' ▸ hk⟩
          · obtain ⟨r, hr, hre⟩ := ih4 k' (by simpa using List.mem_cons_of_mem k h')
            exact ⟨r, List.mem_cons_of_mem _ hr, hre⟩
      · rw [hstep, if_neg hk]
        have hlek : keyLT (Agent1.keyOf a) k := by
          have hle : Agent1.recLE a rk := hall rk hrk
          unfold Agent1.recLE at hle
          rw [hrkey] at hle
          exact lt_of_le_of_ne hle (by simpa using hk)
        have hlt_t : ∀ y ∈ t, keyLT k y.1 := hpair.1
        refine ⟨?_, ?_, ?_, ?_⟩
        · refine List.pairwise_cons.mpr ⟨?_, ih1⟩
          intro y hy
          rcases List.mem_cons.mp hy with h' | h'
          · rw [h']
            exact hlek
          · exact keyLT_trans hlek (hlt_t y h')
        · intro kg' hkg'
          rcases List.mem_cons.mp hkg' with h' | h'
          · subst h'
            refine ⟨?_, by simp⟩
            simp only
            rw [List.filter_cons, if_pos (by simp)]
            have hfil : l.filter (fun r => decide (Agent1.keyOf r = Agent1.keyOf a)) = [] := by
              rw [List.filter_eq_nil_iff]
              intro r hr
              simp only [decide_eq_true_eq]
              intro hra
              have hmem := ih3 r hr
              simp only [List.map_cons] at hmem
              rcases List.mem_cons.mp hmem with h'' | h''
              · exact hk (hra ▸ h'')
              · obtain ⟨y, hy, hye⟩ := List.mem_map.mp h''
                have hlt : keyLT (Agent1.keyOf a) (Agent1.keyOf r) :=
                  keyLT_trans hlek (hye ▸ hlt_t y hy)
                exact keyLT_ne hlt hra.symm
            rw [hfil]
          · rcases List.mem_cons.mp h' with h'' | h''
            · subst h''
              have hg := ih2 (k, g) (by simp)
              refine ⟨?_, hg.2⟩
              simp only
              rw [List.filter_cons, if_neg (by simp [hk])]
              exact hg.1
            · have h2 := ih2 kg' (List.mem_cons_of_mem _ h'')
              have hane : Agent1.keyOf a ≠ kg'.1 :=
                keyLT_ne (keyLT_trans hlek (hlt_t kg' h''))
              refine ⟨?_, h2.2⟩
              rw [h2.1, List.filter_cons, if_neg (by simp [hane])]
        · intro r hr
          rcases List.mem_cons.mp hr with h' | h'
          · subst h'
            simp
          · have := ih3 r h'
            simp only [List.map_cons] at this ⊢
            exact List.mem_cons_of_mem _ this
        · intro k' hk'
          simp only [List.map_cons] at hk'
          rcases List.mem_cons.mp hk' with h' | h'
          · exact ⟨a, List.mem_cons_self _ _, h'.symm⟩
          · obtain ⟨r, hr, hre⟩ := ih4 k' (by simpa using h')
            exact ⟨r, List.mem_cons_of_mem _ hr, hre⟩

/-- C9: `process_batch` silently drops records without a populated sector
or date_key (it is a total function — nothing raises), groups the kept
records by `(sector, date_key)`, emits exactly one entry per distinct key
in strictly ascending key order, and computes each entry by running the
aggregate → calibrate → redistribute pipeline (`processGroup`) on precisely
the kept records of that key (in input order, by sort stability). -/
theorem process_batch_grouping (outputs : List Agent1Record)
    (nd : String × String → Option ℚ) :
    List.Pairwise (fun a b => keyLT a.1 b.1) (Agent1.process_batch outputs nd) ∧
    (∀ kv ∈ Agent1.process_batch outputs nd,
      kv.2 = Agent1.processGroup kv.1
        ((outputs.filter Agent1.keptRecord).filter
          (fun r => decide (Agent1.keyOf r = kv.1))) nd ∧
      (outputs.filter Agent1.keptRecord).filter
          (fun r => decide (Agent1.keyOf r = kv.1)) ≠ []) ∧
    (∀ r ∈ outputs, Agent1.keptRecord r →
      Agent1.keyOf r ∈ (Agent1.process_batch outputs nd).map Prod.fst) ∧
    (∀ k ∈ (Agent1.process_batch outputs nd).map Prod.fst,
      ∃ r ∈ outputs, Agent1.keptRecord r = true ∧ Agent1.keyOf r = k) := by
  obtain ⟨G1, G2, G3, G4⟩ := groupRuns_sorted
    (List.insertionSort Agent1.recLE (outputs.filter Agent1.keptRecord))
    (List.sorted_insertionSort Agent1.recLE _)
  refine ⟨?_, ?_, ?_, ?_⟩
  · unfold Agent1.process_batch
    rw [List.pairwise_map]
    exact G1
  · intro kv hkv
    unfold Agent1.process_batch at hkv
    obtain ⟨kg, hkg, rfl⟩ := List.mem_map.mp hkv
    obtain ⟨hcontent, hne⟩ := G2 kg hkg
    constructor
    · show Agent1.processGroup kg.1 kg.2 nd = _
      rw [hcontent, insertionSort_filter_key]
    · show (outputs.filter Agent1.keptRecord).filter
          (fun r => decide (Agent1.keyOf r = kg.1)) ≠ []
      rw [← insertionSort_filter_key (outputs.filter Agent1.keptRecord) kg.1,
        ← hcontent]
      exact hne
  · intro r hr hkept
    have hrl : r ∈ outputs.filter Agent1.keptRecord :=
      List.mem_filter.mpr ⟨hr, hkept⟩
    have hrs : r ∈ List.insertionSort Agent1.recLE (outputs.filter Agent1.keptRecord) :=
      (List.perm_insertionSort Agent1.recLE _).mem_iff.mpr hrl
    obtain ⟨kg, hkg, hfst⟩ := List.mem_map.mp (G3 r hrs)
    unfold Agent1.process_batch
    exact List.mem_map.mpr
      ⟨(kg.1, Agent1.processGroup kg.1 kg.2 nd), List.mem_map.mpr ⟨kg, hkg, rfl⟩, hfst⟩
  · intro k hk
    unfold Agent1.process_batch at hk
    rw [List.map_map] at hk
    obtain ⟨kg, hkg, hfst⟩ := List.mem_map.mp hk
    obtain ⟨r, hrs, hkey⟩ := G4 k (List.mem_map.mpr ⟨kg, hkg, hfst⟩)
    have hrl : r ∈ outputs.filter Agent1.keptRecord :=
      (List.perm_insertionSort Agent1.recLE _).mem_iff.mp hrs
    obtain ⟨hro, hkept⟩ := List.mem_filter.mp hrl
    exact ⟨r, hro, hkept, hkey⟩

/-- Witness for C9: a complete record's key appears in the result; the
companion record with an empty sector is dropped. -/
theorem process_batch_grouping_witness :
    Agent1.keyOf (mkRec "f1" 1 1 none) ∈
      (Agent1.process_batch exC9 (fun _ => none)).map Prod.fst :=
  (process_batch_grouping exC9 (fun _ => none)).2.2.1 (mkRec "f1" 1 1 none)
    (by simp only [exC9]; exact List.mem_cons_self _ _)
    (by decide)

end NewsAgents
